import Mathlib

/-!
Shallow embedding of the portfolio-rebalancing core of
`gcp_function_main.py` (composer-signals-alpaca).

Modelling conventions:
* Python floats are modelled as rationals (`ℚ`).
* Python dicts are modelled as association lists (`List (String × _)`)
  in insertion order; dict keys are unique, which appears as `Nodup`
  hypotheses on the key lists where a theorem needs it.
* A Python call that can raise an exception is modelled as an `Option`
  (or a dedicated result type): `none` means the exception propagates
  out of the modelled function, exactly as in the source, where the
  pricing loop of `calculate_orders` and the normalization division of
  `get_target_allocations` have no enclosing handler for these errors.
* The broker API (`api.get_latest_trade(s).price`, `api.get_asset(s).fractionable`,
  `api.submit_order`, `api.get_order_by_client_order_id`) is an oracle
  record; a `none` answer models the call raising.
* The executor's observable behaviour (submissions, polling resolutions,
  log lines) is modelled as a sequential trace of `Event`s, in program
  order.
-/

namespace ComposerSignals

/-- One entry of `api.list_positions()`, as projected by
`get_current_positions`: `{'qty': float(...), 'market_value': float(...)}`. -/
structure Position where
  qty : ℚ
  market_value : ℚ
  deriving DecidableEq, Repr

/-- A fully priced order, as stored in the `orders` dict returned by
`calculate_orders`: `{'side': ..., 'value': ..., 'qty': ...}`. -/
structure Order where
  side : String
  value : ℚ
  qty : ℚ
  deriving DecidableEq, Repr

/-- An order entry before the pricing pass: the `'qty'` key may be absent
(for rebalance-pass entries) or already present (for sell-off entries). -/
structure Intent where
  side : String
  value : ℚ
  qty : Option ℚ
  deriving DecidableEq, Repr

/-- The broker data the Order Calculator consults:
`api.get_latest_trade(s).price` and `api.get_asset(s).fractionable`.
`none` models the call raising an exception. -/
structure PriceApi where
  price : String → Option ℚ
  fractionable : String → Option Bool

/-- Python's built-in `round` on the exact value: round half to even. -/
def pyRound (q : ℚ) : ℤ :=
  let f := q.floor
  let r := q - (f : ℚ)
  if r < 1 / 2 then f
  else if 1 / 2 < r then f + 1
  else if f % 2 = 0 then f else f + 1

/-- Liquidation pass of `calculate_orders` (lines 253-258): for every held
symbol not in the target allocations, a sell entry carrying the position's
market value and quantity. (The source iterates a Python set; the model
fixes the iteration order to the positions order, which no claim depends
on — the produced dict is the same.) -/
def sellOffOrders (target : List (String × ℚ)) (positions : List (String × Position)) :
    List (String × Intent) :=
  positions.filterMap fun sp =>
    if (target.lookup sp.1).isSome then none
    else some (sp.1, ⟨"sell", sp.2.market_value, some sp.2.qty⟩)

/-- The `current_positions.get(symbol, {}).get('market_value', 0)` read. -/
def currentValue (positions : List (String × Position)) (s : String) : ℚ :=
  ((positions.lookup s).map Position.market_value).getD 0

/-- Rebalance pass of `calculate_orders` for one target entry
(lines 260-268): sign of `desired_value - current_value` chooses buy /
sell / no order. -/
def rebalanceIntent (positions : List (String × Position)) (amount : ℚ)
    (s : String) (w : ℚ) : Option Intent :=
  let desired_value := amount * w
  let difference := desired_value - currentValue positions s
  if 0 < difference then some ⟨"buy", difference, none⟩
  else if difference < 0 then some ⟨"sell", -difference, none⟩
  else none

/-- Rebalance pass of `calculate_orders` over the whole target dict. -/
def rebalanceOrders (target : List (String × ℚ)) (positions : List (String × Position))
    (amount : ℚ) : List (String × Intent) :=
  target.filterMap fun sw => (rebalanceIntent positions amount sw.1 sw.2).map fun o => (sw.1, o)

/-- Pricing pass of `calculate_orders` for one entry (lines 270-274).
Only symbols in the target allocations are priced:
`price = api.get_latest_trade(symbol).price`, `qty = value / price`,
rounded when not fractionable. A failing price lookup, a zero price
(Python `ZeroDivisionError`), or a failing fractionability lookup raises,
modelled as `none`. Entries outside the target keep their existing qty. -/
def priceOne (api : PriceApi) (target : List (String × ℚ)) (s : String) (o : Intent) :
    Option Order :=
  if (target.lookup s).isSome then
    match api.price s with
    | none => none
    | some p =>
      if p = 0 then none
      else
        match api.fractionable s with
        | none => none
        | some frac =>
          some ⟨o.side, o.value, if frac then o.value / p else (pyRound (o.value / p) : ℚ)⟩
  else
    o.qty.map fun q => ⟨o.side, o.value, q⟩

/-- Pricing pass over the whole orders dict, in insertion order. Any raised
exception propagates out of `calculate_orders`: the whole result is `none`. -/
def priceOrders (api : PriceApi) (target : List (String × ℚ)) :
    List (String × Intent) → Option (List (String × Order))
  | [] => some []
  | (s, o) :: rest =>
    match priceOne api target s o with
    | none => none
    | some ord =>
      match priceOrders api target rest with
      | none => none
      | some res => some ((s, ord) :: res)

/-- The `calculate_orders` function (lines 248-276): liquidation pass, then
rebalance pass, then the pricing pass over the accumulated orders dict.
`none` models an exception escaping the function (no orders at all). -/
def calculate_orders (api : PriceApi) (target_allocations : List (String × ℚ))
    (current_positions : List (String × Position)) (target_investment_amount : ℚ) :
    Option (List (String × Order)) :=
  priceOrders api target_allocations
    (sellOffOrders target_allocations current_positions ++
      rebalanceOrders target_allocations current_positions target_investment_amount)

/-- The `separate_and_prioritize_orders` function (lines 279-291): two dict
comprehensions filtering on `details['side']`. -/
def separate_and_prioritize_orders (orders : List (String × Order)) :
    List (String × Order) × List (String × Order) :=
  (orders.filter fun p => p.2.side == "sell",
   orders.filter fun p => p.2.side == "buy")

/-- Status returned by `api.get_order_by_client_order_id(...).status` at a
poll. `pendingOrError` covers every non-terminal answer and also a
status-check call that raises (both fall through to the `sleep(3)`). -/
inductive Status where
  | filled
  | cancelled
  | expired
  | pendingOrError
  deriving DecidableEq, Repr

/-- Exit path of `wait_for_order_fill`: `filled` (returns True),
`notFilled` (cancelled/expired, returns False), `timeout` (loop guard
fails, logs "not filled within timeout", returns False). -/
inductive FillOutcome where
  | filled
  | notFilled
  | timeout
  deriving DecidableEq, Repr

/-- The polling loop of `wait_for_order_fill` (lines 123-136). `status t`
is the polled status at elapsed time `t`; each iteration checks
`time.time() - start_time < timeout`, polls, and sleeps 3 seconds (the
status check itself is modelled as instantaneous). The second component
of the result is the total elapsed polling time on exit. `fuel` bounds
the recursion; the wrapper supplies enough fuel that the `0` case is
unreachable (each iteration advances elapsed by 3 ≥ 1). -/
def pollLoopAux (status : ℕ → Status) (timeout : ℕ) :
    ℕ → ℕ → FillOutcome × ℕ
  | 0, elapsed => (.timeout, elapsed)
  | fuel + 1, elapsed =>
    if elapsed < timeout then
      match status elapsed with
      | .filled => (.filled, elapsed)
      | .cancelled => (.notFilled, elapsed)
      | .expired => (.notFilled, elapsed)
      | .pendingOrError => pollLoopAux status timeout fuel (elapsed + 3)
    else (.timeout, elapsed)

/-- The `wait_for_order_fill` function (lines 106-136), started at elapsed
time 0 with fuel `timeout + 1` (sufficient: after `k` iterations elapsed
is `3 k`). -/
def wait_for_order_fill (status : ℕ → Status) (timeout : ℕ) : FillOutcome × ℕ :=
  pollLoopAux status timeout (timeout + 1) 0

/-- Broker oracle for the executor: `submit s` is
`api.submit_order(symbol=s, ...)` returning the client order id, `none`
when it raises (caught in `create_and_submit_order`, which logs and
returns None); `status cid t` is the polled status of that client order
id at elapsed time `t`. -/
structure Broker where
  submit : String → Option String
  status : String → ℕ → Status

/-- Observable executor actions, in program order: the attempt log, a
successful submission, the "Failed to submit order" log (with None
returned), the terminal resolution of the polling loop, and the two
result log lines of `execute_prioritized_orders`. -/
inductive Event where
  | attempt (symbol : String) (action : String) (qty : ℚ)
  | submitted (symbol : String) (action : String)
  | submitFailedLog (symbol : String)
  | resolved (symbol : String) (action : String) (outcome : FillOutcome)
  | successLog (symbol : String) (action : String)
  | execFailedLog (symbol : String) (action : String)
  deriving DecidableEq, Repr

/-- One iteration of the inner loop of `execute_prioritized_orders`
(lines 305-316): skip when `qty ≤ 0`; otherwise log the attempt, submit
via `create_and_submit_order`, and — only when a client order id came
back — poll with `wait_for_order_fill`. Note the source's `else` branch
logs success both when the order filled and when submission failed
(`client_order_id` is None, so the condition short-circuits). -/
def processOrder (b : Broker) (timeout : ℕ) (action : String) (p : String × Order) :
    List Event :=
  if 0 < p.2.qty then
    Event.attempt p.1 action p.2.qty ::
      (match b.submit p.1 with
       | none => [Event.submitFailedLog p.1, Event.successLog p.1 action]
       | some cid =>
         let r := wait_for_order_fill (b.status cid) timeout
         [Event.submitted p.1 action, Event.resolved p.1 action r.1] ++
           (if r.1 = .filled then [Event.successLog p.1 action]
            else [Event.execFailedLog p.1 action]))
  else []

/-- Inner loop of `execute_prioritized_orders` over one group of orders. -/
def executeSide (b : Broker) (timeout : ℕ) (action : String)
    (orders : List (String × Order)) : List Event :=
  orders.flatMap (processOrder b timeout action)

/-- The `execute_prioritized_orders` function (lines 293-316): the outer
loop runs the sell group to completion, then the buy group. -/
def execute_prioritized_orders (b : Broker) (sell_orders buy_orders : List (String × Order))
    (timeout : ℕ) : List Event :=
  executeSide b timeout "sell" sell_orders ++ executeSide b timeout "buy" buy_orders

/-- The loop action ("sell" or "buy") an event was emitted under, when it
carries one; used to show events of the two executor phases are distinct. -/
def eventAction : Event → Option String
  | .attempt _ a _ => some a
  | .submitted _ a => some a
  | .submitFailedLog _ => none
  | .resolved _ a _ => some a
  | .successLog _ a => some a
  | .execFailedLog _ a => some a

/-- One row of the allocation CSV after `pd.read_csv` and the
`pd.to_numeric(..., errors='coerce')` coercion: `alloc = none` models a
non-numeric value turned into NaN. -/
structure Row where
  symphony : String
  ticker : String
  alloc : Option ℚ
  deriving DecidableEq, Repr

/-- Result of `get_target_allocations`: either the returned dict, or the
uncaught `ZeroDivisionError` raised by the normalization (the `except`
clause catches only `KeyError`). -/
inductive FetchResult where
  | ok (allocs : List (String × ℚ))
  | zeroDivisionError
  deriving DecidableEq, Repr

/-- Python-dict insertion: an existing key keeps its position and gets the
new value (last write wins); a fresh key is appended. -/
def dictInsert (d : List (String × ℚ)) (k : String) (v : ℚ) : List (String × ℚ) :=
  if d.any (fun p => p.1 == k) then d.map fun p => if p.1 == k then (k, v) else p
  else d ++ [(k, v)]

/-- The symphony-filtered rows with their coerced numeric allocations, in
row order (rows whose allocation coerced to NaN carry no pair; the
caller only uses this after checking no NaN is present). -/
def coercedRows (rows : List Row) (symphony : String) : List (String × ℚ) :=
  (rows.filter fun r => r.symphony == symphony).filterMap fun r =>
    r.alloc.map fun v => (r.ticker, v)

/-- The `filtered_df.set_index('Ticker')['Ticker Allocation Percent'].to_dict()`
step (line 236): builds a dict keyed by ticker in row order, so a
duplicated ticker keeps the last row's value. -/
def targetAllocationsDict (rows : List Row) (symphony : String) : List (String × ℚ) :=
  (coercedRows rows symphony).foldl (fun d p => dictInsert d p.1 p.2) []

/-- The `get_target_allocations` function (lines 201-246), from the parsed
CSV onward. `columnsOk = false` models a missing expected column (the
function logs and returns `{}`). A NaN after coercion returns `{}`. The
normalization divides every value by the sum; over an empty dict the
comprehension performs no division and `{}` is returned, over a nonempty
dict with zero sum the first division raises `ZeroDivisionError`, which
no handler catches. -/
def get_target_allocations (columnsOk : Bool) (rows : List Row)
    (symphony_to_trade : String) : FetchResult :=
  if !columnsOk then .ok []
  else
    let filtered := rows.filter fun r => r.symphony == symphony_to_trade
    if filtered.any (fun r => r.alloc.isNone) then .ok []
    else
      let target := targetAllocationsDict rows symphony_to_trade
      let total := (target.map Prod.snd).sum
      if target.isEmpty then .ok []
      else if total = 0 then .zeroDivisionError
      else .ok (target.map fun p => (p.1, p.2 / total))

/-- The order-relevant tail of `hello_pubsub` (lines 350-375): the fetched
allocations flow into `calculate_orders` with no validity or emptiness
check; the only gate is the market-open short-circuit. `none` models an
exception aborting the run. The result is the executor's event trace. -/
def hello_pubsub (b : Broker) (api : PriceApi) (fetch : FetchResult)
    (positions : List (String × Position)) (amount : ℚ) (marketOpen : Bool)
    (timeout : ℕ) : Option (List Event) :=
  match fetch with
  | .zeroDivisionError => none
  | .ok target =>
    if !marketOpen then some []
    else
      match calculate_orders api target positions amount with
      | none => none
      | some orders =>
        let so := separate_and_prioritize_orders orders
        some (execute_prioritized_orders b so.1 so.2 timeout)

/-! Helper lemmas about association-list lookup (Python dict reads). -/

theorem lookup_cons_self {α : Type} (s : String) (v : α) (l : List (String × α)) :
    ((s, v) :: l).lookup s = some v := by
  simp [List.lookup_cons]

theorem lookup_cons_ne {α : Type} {s k : String} (h : ¬s = k) (v : α)
    (l : List (String × α)) : ((k, v) :: l).lookup s = l.lookup s := by
  simp only [List.lookup_cons]
  rw [show (s == k) = false by simpa using h]

theorem lookup_append_left {α : Type} {l₁ : List (String × α)} {s : String} {v : α}
    (l₂ : List (String × α)) (h : l₁.lookup s = some v) :
    (l₁ ++ l₂).lookup s = some v := by
  induction l₁ with
  | nil => simp at h
  | cons p rest ih =>
    obtain ⟨k, w⟩ := p
    by_cases hs : s = k
    · subst hs
      rw [lookup_cons_self] at h
      simpa [lookup_cons_self] using h
    · rw [lookup_cons_ne hs] at h
      rw [List.cons_append, lookup_cons_ne hs]
      exact ih h

theorem lookup_append_right {α : Type} {l₁ : List (String × α)} {s : String}
    (l₂ : List (String × α)) (h : l₁.lookup s = none) :
    (l₁ ++ l₂).lookup s = l₂.lookup s := by
  induction l₁ with
  | nil => simp
  | cons p rest ih =>
    obtain ⟨k, w⟩ := p
    by_cases hs : s = k
    · subst hs
      rw [lookup_cons_self] at h
      exact absurd h (by simp)
    · rw [lookup_cons_ne hs] at h
      rw [List.cons_append, lookup_cons_ne hs]
      exact ih h

theorem lookup_eq_none_iff {α : Type} (l : List (String × α)) (s : String) :
    l.lookup s = none ↔ s ∉ l.map Prod.fst := by
  induction l with
  | nil => simp
  | cons p rest ih =>
    obtain ⟨k, w⟩ := p
    by_cases hs : s = k
    · subst hs
      simp [lookup_cons_self]
    · simp [lookup_cons_ne hs, ih, hs]

theorem mem_of_lookup_eq_some {α : Type} {l : List (String × α)} {s : String} {v : α}
    (h : l.lookup s = some v) : (s, v) ∈ l := by
  induction l with
  | nil => simp at h
  | cons p rest ih =>
    obtain ⟨k, w⟩ := p
    by_cases hs : s = k
    · subst hs
      rw [lookup_cons_self] at h
      obtain rfl : w = v := by simpa using h
      exact List.mem_cons_self _ _
    · rw [lookup_cons_ne hs] at h
      exact List.mem_cons_of_mem _ (ih h)

theorem filter_key_eq_nil {α : Type} {l : List (String × α)} {s : String}
    (h : s ∉ l.map Prod.fst) : l.filter (fun p => p.1 == s) = [] := by
  rw [List.filter_eq_nil_iff]
  intro p hp hps
  have hps' : p.1 = s := by simpa using hps
  exact h (List.mem_map.mpr ⟨p, hp, hps'⟩)

theorem filter_key_eq_single {α : Type} {l : List (String × α)} {s : String} {v : α}
    (hnd : (l.map Prod.fst).Nodup) (h : l.lookup s = some v) :
    l.filter (fun p => p.1 == s) = [(s, v)] := by
  induction l with
  | nil => simp at h
  | cons p rest ih =>
    obtain ⟨k, w⟩ := p
    rw [List.map_cons, List.nodup_cons] at hnd
    by_cases hs : s = k
    · subst hs
      rw [lookup_cons_self] at h
      obtain rfl : w = v := by simpa using h
      rw [List.filter_cons_of_pos (by simp)]
      rw [filter_key_eq_nil hnd.1]
    · rw [lookup_cons_ne hs] at h
      rw [List.filter_cons_of_neg (by simpa using fun hk => hs hk.symm)]
      exact ih hnd.2 h

/-! Claim C1, C2, C3: behaviour of the pipeline on invalid targets and on
per-symbol lookup failures, settled on concrete inputs. -/

/-- C1: the claim says that an invalid or empty target (here: the symphony
filter matches zero rows) stops the orchestrator before any orders are
computed or placed, and in particular that an empty target never produces
liquidation sells. In the code, `hello_pubsub` has no such gate:
`get_target_allocations` returns the empty dict and `calculate_orders`
then classifies every held position as a sell-off, so the run computes
and submits a full-liquidation sell for the held position "C". -/
theorem c1_empty_target_liquidates :
    get_target_allocations true [⟨"X", "A", some 50⟩] "Y" = .ok [] ∧
    hello_pubsub ⟨fun _ => some "oid", fun _ _ => .filled⟩
        ⟨fun _ => some 10, fun _ => some true⟩ (.ok [])
        [("C", ⟨5, 500⟩)] 1000 true 6 =
      some [Event.attempt "C" "sell" 5, Event.submitted "C" "sell",
        Event.resolved "C" "sell" .filled, Event.successLog "C" "sell"] := by
  exact ⟨rfl, rfl⟩

/-- C2: the claim says a filtered allocation input summing to zero is
reported as a failure without any division by zero, the division being
explicitly guarded. In the code the division `percent / total_allocation_percent`
has no guard: on the nonempty all-zero input it raises `ZeroDivisionError`
(the `except KeyError` clause does not catch it), which aborts the whole
run — `hello_pubsub` produces nothing. -/
theorem c2_zero_sum_division_unguarded :
    get_target_allocations true [⟨"S", "A", some 0⟩] "S" = .zeroDivisionError ∧
    hello_pubsub ⟨fun _ => some "oid", fun _ _ => .filled⟩
        ⟨fun _ => some 10, fun _ => some true⟩
        (get_target_allocations true [⟨"S", "A", some 0⟩] "S")
        [("C", ⟨5, 500⟩)] 1000 true 6 = none := by
  constructor
  · with_unfolding_all rfl
  · with_unfolding_all rfl

/-- C3: the claim says a price-lookup failure for one symbol aborts only
that symbol's order while the rest of the batch is still produced. In
the code the pricing loop of `calculate_orders` has no per-symbol
handler: with a target of "A" and "B" where only the lookup for "A"
fails, the whole call raises and no orders at all are produced — the
second conjunct shows the very same batch would have produced "B"'s
order had "A" not failed. -/
theorem c3_price_failure_aborts_batch :
    calculate_orders ⟨fun s => if s == "A" then none else some 10, fun _ => some true⟩
        [("A", 1 / 2), ("B", 1 / 2)] [] 100 = none ∧
    calculate_orders ⟨fun _ => some 10, fun _ => some true⟩
        [("A", 1 / 2), ("B", 1 / 2)] [] 100 =
      some [("A", ⟨"buy", 50, 5⟩), ("B", ⟨"buy", 50, 5⟩)] := by
  constructor
  · with_unfolding_all rfl
  · with_unfolding_all rfl

/-! Claim C8: the fill monitor on an order that never reaches a terminal
status. -/

/-- Invariant of the polling loop under a never-terminal status stream:
started anywhere below the overshoot bound with enough fuel, it exits on
the timeout path with total elapsed time in `[timeout, timeout + 3)`. -/
theorem pollLoopAux_spec (status : ℕ → Status) (timeout : ℕ)
    (h : ∀ t, status t = .pendingOrError) :
    ∀ fuel elapsed, elapsed < timeout + 3 → timeout ≤ elapsed + 3 * fuel →
      (pollLoopAux status timeout fuel elapsed).1 = .timeout ∧
      timeout ≤ (pollLoopAux status timeout fuel elapsed).2 ∧
      (pollLoopAux status timeout fuel elapsed).2 < timeout + 3 := by
  intro fuel
  induction fuel with
  | zero =>
    intro elapsed h1 h2
    exact ⟨rfl, by simpa [pollLoopAux] using by omega, by simpa [pollLoopAux] using h1⟩
  | succ n ih =>
    intro elapsed h1 h2
    by_cases hlt : elapsed < timeout
    · have : pollLoopAux status timeout (n + 1) elapsed =
          pollLoopAux status timeout n (elapsed + 3) := by
        simp [pollLoopAux, hlt, h elapsed]
      rw [this]
      exact ih (elapsed + 3) (by omega) (by omega)
    · have : pollLoopAux status timeout (n + 1) elapsed = (.timeout, elapsed) := by
        simp [pollLoopAux, hlt]
      rw [this]
      exact ⟨rfl, by omega, h1⟩

/-- C8: if the polled status never becomes filled, cancelled or expired,
`wait_for_order_fill` exits on the timeout path (logging the timeout and
returning False), and the total elapsed polling time is at least the
configured timeout and at most the timeout plus one 3-second poll
interval. -/
theorem c8_timeout_bounds (status : ℕ → Status) (timeout : ℕ)
    (h : ∀ t, status t ≠ .filled ∧ status t ≠ .cancelled ∧ status t ≠ .expired) :
    (wait_for_order_fill status timeout).1 = .timeout ∧
    timeout ≤ (wait_for_order_fill status timeout).2 ∧
    (wait_for_order_fill status timeout).2 ≤ timeout + 3 := by
  have h' : ∀ t, status t = .pendingOrError := by
    intro t
    obtain ⟨h1, h2, h3⟩ := h t
    cases hst : status t <;> simp_all
  have hs := pollLoopAux_spec status timeout h' (timeout + 1) 0 (by omega) (by omega)
  exact ⟨hs.1, hs.2.1, le_of_lt hs.2.2⟩

/-- Witness for C8 at a concrete never-terminal status stream and
timeout 7: the monitor reports timeout after 9 elapsed seconds,
within `[7, 10]`. -/
theorem c8_timeout_bounds_witness :
    (wait_for_order_fill (fun _ => Status.pendingOrError) 7).1 = .timeout ∧
    7 ≤ (wait_for_order_fill (fun _ => Status.pendingOrError) 7).2 ∧
    (wait_for_order_fill (fun _ => Status.pendingOrError) 7).2 ≤ 7 + 3 :=
  c8_timeout_bounds (fun _ => Status.pendingOrError) 7 (fun _ => by simp)

/-! Claim C9: a submission failure is recorded and does not abort the
batch. -/

/-- C9: when the broker rejects the submission of one order (modelled by
`b.submit s = none`, the case in which `create_and_submit_order` catches
the exception, logs "Failed to submit order", and returns None), the
executor emits the failure log for that order, never submits or polls it
(its terminal state is submission_failed), and processes every later
order of the group exactly as it would have otherwise: the trace of
`post` follows unchanged. (The trailing success log on the failed order
is the source's `else` branch, which C9 does not constrain.) -/
theorem c9_submission_failure_continues (b : Broker) (timeout : ℕ) (action : String)
    (pre post : List (String × Order)) (s : String) (o : Order)
    (hq : 0 < o.qty) (hfail : b.submit s = none) :
    executeSide b timeout action (pre ++ (s, o) :: post) =
      executeSide b timeout action pre ++
        (Event.attempt s action o.qty :: Event.submitFailedLog s ::
          Event.successLog s action :: executeSide b timeout action post) := by
  simp [executeSide, processOrder, hq, hfail]

/-- Witness for C9: a broker that rejects every submission, one failing
sell followed by another order; the failure is logged and the second
order's events still appear. -/
theorem c9_submission_failure_continues_witness :
    executeSide ⟨fun _ => none, fun _ _ => Status.filled⟩ 6 "sell"
        ([] ++ ("C", ⟨"sell", 500, 5⟩) :: [("D", ⟨"sell", 300, 3⟩)]) =
      executeSide ⟨fun _ => none, fun _ _ => Status.filled⟩ 6 "sell" [] ++
        (Event.attempt "C" "sell" 5 :: Event.submitFailedLog "C" ::
          Event.successLog "C" "sell" ::
          executeSide ⟨fun _ => none, fun _ _ => Status.filled⟩ 6 "sell"
            [("D", ⟨"sell", 300, 3⟩)]) :=
  c9_submission_failure_continues ⟨fun _ => none, fun _ _ => Status.filled⟩ 6 "sell"
    [] [("D", ⟨"sell", 300, 3⟩)] "C" ⟨"sell", 500, 5⟩ (by norm_num) rfl

/-! Claim C6: the sequencer partitions the order set by side. -/

/-- C6: for an order mapping whose entries all carry side "sell" or "buy",
`separate_and_prioritize_orders` is a partition of the input: the two
outputs together are a permutation of the input (each entry exactly once,
no loss, no duplication), every entry of the first output has side
"sell", and every entry of the second has side "buy". -/
theorem c6_partition (orders : List (String × Order))
    (h : ∀ p ∈ orders, p.2.side = "sell" ∨ p.2.side = "buy") :
    ((separate_and_prioritize_orders orders).1 ++
        (separate_and_prioritize_orders orders).2).Perm orders ∧
    (∀ p ∈ (separate_and_prioritize_orders orders).1, p.2.side = "sell") ∧
    (∀ p ∈ (separate_and_prioritize_orders orders).2, p.2.side = "buy") := by
  refine ⟨?_, ?_, ?_⟩
  · induction orders with
    | nil => simp [separate_and_prioritize_orders]
    | cons p rest ih =>
      have ih' := ih fun q hq => h q (List.mem_cons_of_mem _ hq)
      rcases h p (List.mem_cons_self _ _) with hs | hb
      · simpa [separate_and_prioritize_orders, hs] using ih'.cons p
      · simp only [separate_and_prioritize_orders, List.filter_cons] at ih' ⊢
        rw [if_neg (by simp [hb]), if_pos (by simp [hb])]
        exact (List.perm_middle.trans (ih'.cons p)).symm.symm
  · intro p hp
    have := List.of_mem_filter hp
    simpa using this
  · intro p hp
    have := List.of_mem_filter hp
    simpa using this

/-- Witness for C6 on a concrete mixed order set: one sell, one buy. -/
theorem c6_partition_witness :
    ((separate_and_prioritize_orders
        [("C", ⟨"sell", 500, 5⟩), ("A", ⟨"buy", 600, 60⟩)]).1 ++
      (separate_and_prioritize_orders
        [("C", ⟨"sell", 500, 5⟩), ("A", ⟨"buy", 600, 60⟩)]).2).Perm
      [("C", ⟨"sell", 500, 5⟩), ("A", ⟨"buy", 600, 60⟩)] ∧
    (∀ p ∈ (separate_and_prioritize_orders
        [("C", ⟨"sell", 500, 5⟩), ("A", ⟨"buy", 600, 60⟩)]).1, p.2.side = "sell") ∧
    (∀ p ∈ (separate_and_prioritize_orders
        [("C", ⟨"sell", 500, 5⟩), ("A", ⟨"buy", 600, 60⟩)]).2, p.2.side = "buy") :=
  c6_partition [("C", ⟨"sell", 500, 5⟩), ("A", ⟨"buy", 600, 60⟩)]
    (by
      intro p hp
      simp only [List.mem_cons, List.not_mem_nil, or_false] at hp
      rcases hp with rfl | rfl
      · left; rfl
      · right; rfl)

/-! Claim C7: the sell-before-buy barrier in the executor trace. -/

theorem eventAction_of_mem_processOrder {b : Broker} {timeout : ℕ} {action : String}
    {p : String × Order} {e : Event} (he : e ∈ processOrder b timeout action p)
    {a : String} (ha : eventAction e = some a) : a = action := by
  unfold processOrder at he
  by_cases hq : 0 < p.2.qty
  · rw [if_pos hq] at he
    rcases List.mem_cons.mp he with rfl | he'
    · simpa [eventAction] using ha.symm
    · cases hsub : b.submit p.1 with
      | none =>
        simp only [hsub, List.mem_cons, List.not_mem_nil, or_false] at he'
        rcases he' with rfl | rfl
        · simp [eventAction] at ha
        · simpa [eventAction] using ha.symm
      | some cid =>
        simp only [hsub] at he'
        by_cases hfill :
            (wait_for_order_fill (b.status cid) timeout).1 = FillOutcome.filled
        · rw [if_pos hfill] at he'
          simp only [List.cons_append, List.nil_append, List.mem_cons,
            List.not_mem_nil, or_false] at he'
          rcases he' with rfl | rfl | rfl <;> simpa [eventAction] using ha.symm
        · rw [if_neg hfill] at he'
          simp only [List.cons_append, List.nil_append, List.mem_cons,
            List.not_mem_nil, or_false] at he'
          rcases he' with rfl | rfl | rfl <;> simpa [eventAction] using ha.symm
  · rw [if_neg hq] at he
    simp at he

theorem eventAction_of_mem_executeSide {b : Broker} {timeout : ℕ} {action : String}
    {l : List (String × Order)} {e : Event} (he : e ∈ executeSide b timeout action l)
    {a : String} (ha : eventAction e = some a) : a = action := by
  rw [executeSide, List.mem_flatMap] at he
  obtain ⟨p, _, hp⟩ := he
  exact eventAction_of_mem_processOrder hp ha

theorem resolved_mem_processOrder {b : Broker} {timeout : ℕ} {action : String}
    {s : String} {o : Order} {cid : String} (hq : 0 < o.qty)
    (hsub : b.submit s = some cid) :
    Event.resolved s action (wait_for_order_fill (b.status cid) timeout).1 ∈
      processOrder b timeout action (s, o) := by
  simp only [processOrder, hq, if_true, hsub]
  by_cases hfill : (wait_for_order_fill (b.status cid) timeout).1 = .filled <;>
    simp [hfill]

/-- C7: in the executor's sequential event trace, for every sell order
(with positive quantity and accepted submission) and every buy
submission event, the sell order's terminal polling resolution occurs at
a strictly earlier trace position than the buy submission: no buy is
submitted before every sell has been submitted and polled to a terminal
resolution. -/
theorem c7_sell_resolution_before_buy_submission {b : Broker}
    {sells buys : List (String × Order)} {timeout : ℕ} {s : String} {o : Order}
    {cid : String} (hmem : (s, o) ∈ sells) (hq : 0 < o.qty)
    (hsub : b.submit s = some cid) {i : ℕ} {sym : String}
    (hbuy : (execute_prioritized_orders b sells buys timeout)[i]? =
      some (Event.submitted sym "buy")) :
    ∃ j, j < i ∧ ∃ out, (execute_prioritized_orders b sells buys timeout)[j]? =
      some (Event.resolved s "sell" out) := by
  have htr : execute_prioritized_orders b sells buys timeout =
      executeSide b timeout "sell" sells ++ executeSide b timeout "buy" buys := rfl
  have hres : Event.resolved s "sell" (wait_for_order_fill (b.status cid) timeout).1 ∈
      executeSide b timeout "sell" sells := by
    rw [executeSide, List.mem_flatMap]
    exact ⟨(s, o), hmem, resolved_mem_processOrder hq hsub⟩
  obtain ⟨j, hjL, hje⟩ := List.mem_iff_getElem.mp hres
  have hiL : (executeSide b timeout "sell" sells).length ≤ i := by
    by_contra hlt
    push_neg at hlt
    have hget : (execute_prioritized_orders b sells buys timeout)[i]? =
        (executeSide b timeout "sell" sells)[i]? := by
      rw [htr]
      exact List.getElem?_append_left hlt
    rw [hget, List.getElem?_eq_getElem hlt] at hbuy
    have hmem' : (executeSide b timeout "sell" sells)[i] ∈
        executeSide b timeout "sell" sells := List.getElem_mem hlt
    rw [Option.some_inj.mp hbuy] at hmem'
    have : ("buy" : String) = "sell" :=
      eventAction_of_mem_executeSide hmem' (by simp [eventAction])
    simp at this
  refine ⟨j, lt_of_lt_of_le hjL hiL,
    (wait_for_order_fill (b.status cid) timeout).1, ?_⟩
  rw [htr, List.getElem?_append_left hjL, List.getElem?_eq_getElem hjL, hje]

/-- Witness for C7: one sell for "C" and one buy for "A"; the buy
submission sits at trace index 5 and the sell's resolution strictly
before it. -/
theorem c7_sell_resolution_before_buy_submission_witness :
    ∃ j, j < 5 ∧
      ∃ out, (execute_prioritized_orders ⟨fun _ => some "oid", fun _ _ => .filled⟩
          [("C", ⟨"sell", 500, 5⟩)] [("A", ⟨"buy", 600, 60⟩)] 6)[j]? =
        some (Event.resolved "C" "sell" out) :=
  @c7_sell_resolution_before_buy_submission ⟨fun _ => some "oid", fun _ _ => .filled⟩
    [("C", ⟨"sell", 500, 5⟩)] [("A", ⟨"buy", 600, 60⟩)] 6 "C" ⟨"sell", 500, 5⟩ "oid"
    (List.mem_cons_self _ _) (by norm_num) rfl 5 "A" rfl

/-! Lemmas about the Order Calculator (`calculate_orders`). -/

theorem priceOne_some {api : PriceApi} {target : List (String × ℚ)} {s : String}
    {o : Intent} {ord : Order} (h : priceOne api target s o = some ord) :
    ord.side = o.side ∧ ord.value = o.value := by
  unfold priceOne at h
  by_cases ht : (target.lookup s).isSome = true
  · rw [if_pos ht] at h
    cases hp : api.price s with
    | none => simp only [hp] at h; exact Option.noConfusion h
    | some p =>
      simp only [hp] at h
      by_cases hz : p = 0
      · rw [if_pos hz] at h; simp at h
      · rw [if_neg hz] at h
        cases hf : api.fractionable s with
        | none => simp only [hf] at h; exact Option.noConfusion h
        | some frac =>
          simp only [hf] at h
          obtain rfl := Option.some_inj.mp h
          exact ⟨rfl, rfl⟩
  · rw [if_neg ht] at h
    cases hq : o.qty with
    | none => simp only [hq, Option.map_none'] at h; exact Option.noConfusion h
    | some q =>
      simp only [hq, Option.map_some'] at h
      obtain rfl := Option.some_inj.mp (by simpa using h)
      exact ⟨rfl, rfl⟩

theorem priceOrders_lookup {api : PriceApi} {target : List (String × ℚ)}
    {l : List (String × Intent)} {res : List (String × Order)}
    (h : priceOrders api target l = some res) (s : String) :
    res.lookup s = (l.lookup s).bind (priceOne api target s) := by
  induction l generalizing res with
  | nil =>
    simp only [priceOrders, Option.some_inj] at h
    subst h
    simp
  | cons p rest ih =>
    obtain ⟨k, o⟩ := p
    simp only [priceOrders] at h
    cases hp : priceOne api target k o with
    | none => simp only [hp] at h; exact Option.noConfusion h
    | some ord =>
      simp only [hp] at h
      cases hr : priceOrders api target rest with
      | none => simp only [hr] at h; exact Option.noConfusion h
      | some res' =>
        simp only [hr, Option.some_inj] at h
        subst h
        by_cases hs : s = k
        · subst hs
          rw [lookup_cons_self, lookup_cons_self]
          simp [hp]
        · rw [lookup_cons_ne hs, lookup_cons_ne hs]
          exact ih hr

theorem priceOrders_keys {api : PriceApi} {target : List (String × ℚ)}
    {l : List (String × Intent)} {res : List (String × Order)}
    (h : priceOrders api target l = some res) :
    res.map Prod.fst = l.map Prod.fst := by
  induction l generalizing res with
  | nil =>
    simp only [priceOrders, Option.some_inj] at h
    subst h
    rfl
  | cons p rest ih =>
    obtain ⟨k, o⟩ := p
    simp only [priceOrders] at h
    cases hp : priceOne api target k o with
    | none => simp only [hp] at h; exact Option.noConfusion h
    | some ord =>
      simp only [hp] at h
      cases hr : priceOrders api target rest with
      | none => simp only [hr] at h; exact Option.noConfusion h
      | some res' =>
        simp only [hr, Option.some_inj] at h
        subst h
        simp [ih hr]

theorem priceOrders_mem_isSome {api : PriceApi} {target : List (String × ℚ)}
    {l : List (String × Intent)} {res : List (String × Order)}
    (h : priceOrders api target l = some res) {s : String} {o : Intent}
    (hmem : (s, o) ∈ l) : (priceOne api target s o).isSome = true := by
  induction l generalizing res with
  | nil => simp at hmem
  | cons p rest ih =>
    obtain ⟨k, o'⟩ := p
    simp only [priceOrders] at h
    cases hp : priceOne api target k o' with
    | none => simp only [hp] at h; exact Option.noConfusion h
    | some ord =>
      simp only [hp] at h
      cases hr : priceOrders api target rest with
      | none => simp only [hr] at h; exact Option.noConfusion h
      | some res' =>
        rcases List.mem_cons.mp hmem with heq | hmem'
        · obtain ⟨rfl, rfl⟩ := Prod.mk.injEq .. ▸ heq
          rw [hp]
          rfl
        · exact ih hr hmem'

theorem sellOff_lookup_of_not_target {target : List (String × ℚ)}
    {positions : List (String × Position)} {s : String} {pos : Position}
    (hpos : positions.lookup s = some pos) (habs : target.lookup s = none) :
    (sellOffOrders target positions).lookup s =
      some ⟨"sell", pos.market_value, some pos.qty⟩ := by
  induction positions with
  | nil => simp at hpos
  | cons p rest ih =>
    obtain ⟨k, q⟩ := p
    simp only [sellOffOrders, List.filterMap_cons] at ih ⊢
    by_cases hs : s = k
    · subst hs
      rw [lookup_cons_self] at hpos
      obtain rfl := Option.some_inj.mp hpos
      simp only [habs, Option.isSome_none, Bool.false_eq_true, if_false]
      exact lookup_cons_self _ _ _
    · rw [lookup_cons_ne hs] at hpos
      cases htk : target.lookup k with
      | some u =>
        simp only [htk, Option.isSome_some, eq_self_iff_true, if_true]
        exact ih hpos
      | none =>
        simp only [htk, Option.isSome_none, Bool.false_eq_true, if_false]
        rw [lookup_cons_ne hs]
        exact ih hpos

theorem sellOff_lookup_of_target {target : List (String × ℚ)}
    {positions : List (String × Position)} {s : String}
    (ht : (target.lookup s).isSome = true) :
    (sellOffOrders target positions).lookup s = none := by
  induction positions with
  | nil => rfl
  | cons p rest ih =>
    obtain ⟨k, q⟩ := p
    simp only [sellOffOrders, List.filterMap_cons] at ih ⊢
    cases htk : target.lookup k with
    | some u =>
      simp only [htk, Option.isSome_some, eq_self_iff_true, if_true]
      exact ih
    | none =>
      simp only [htk, Option.isSome_none, Bool.false_eq_true, if_false]
      have hs : ¬s = k := fun h => by
        rw [h, htk] at ht
        exact Bool.noConfusion ht
      rw [lookup_cons_ne hs]
      exact ih

theorem sellOff_keys_sublist (target : List (String × ℚ))
    (positions : List (String × Position)) :
    List.Sublist ((sellOffOrders target positions).map Prod.fst)
      (positions.map Prod.fst) := by
  induction positions with
  | nil => simp [sellOffOrders]
  | cons p rest ih =>
    simp only [sellOffOrders, List.filterMap_cons] at ih ⊢
    cases htk : target.lookup p.1 with
    | some u =>
      simp only [htk, Option.isSome_some, eq_self_iff_true, if_true]
      exact ih.cons p.1
    | none =>
      simp only [htk, Option.isSome_none, Bool.false_eq_true, if_false, List.map_cons]
      exact ih.cons₂ p.1

theorem lookup_of_mem_sellOff_keys {target : List (String × ℚ)}
    {positions : List (String × Position)} {x : String}
    (hx : x ∈ (sellOffOrders target positions).map Prod.fst) :
    target.lookup x = none := by
  induction positions with
  | nil => simp [sellOffOrders] at hx
  | cons p rest ih =>
    simp only [sellOffOrders, List.filterMap_cons] at ih hx
    cases htk : target.lookup p.1 with
    | some u =>
      simp only [htk, Option.isSome_some, eq_self_iff_true, if_true] at hx
      exact ih hx
    | none =>
      simp only [htk, Option.isSome_none, Bool.false_eq_true, if_false, List.map_cons,
        List.mem_cons] at hx
      rcases hx with rfl | hx'
      · exact htk
      · exact ih hx'

theorem rebalance_keys_sublist (target : List (String × ℚ))
    (positions : List (String × Position)) (amount : ℚ) :
    List.Sublist ((rebalanceOrders target positions amount).map Prod.fst)
      (target.map Prod.fst) := by
  induction target with
  | nil => simp [rebalanceOrders]
  | cons p rest ih =>
    simp only [rebalanceOrders, List.filterMap_cons] at ih ⊢
    cases hi : rebalanceIntent positions amount p.1 p.2 with
    | none =>
      simp only [hi, Option.map_none', List.map_cons]
      exact ih.cons p.1
    | some intent =>
      simp only [hi, Option.map_some', List.map_cons]
      exact ih.cons₂ p.1

theorem rebalance_lookup_of_target {target : List (String × ℚ)}
    {positions : List (String × Position)} {amount : ℚ} {s : String} {w : ℚ}
    (hndt : (target.map Prod.fst).Nodup) (hw : target.lookup s = some w) :
    (rebalanceOrders target positions amount).lookup s =
      rebalanceIntent positions amount s w := by
  induction target with
  | nil => simp at hw
  | cons p rest ih =>
    obtain ⟨k, u⟩ := p
    rw [List.map_cons, List.nodup_cons] at hndt
    simp only [rebalanceOrders, List.filterMap_cons] at ih ⊢
    by_cases hs : s = k
    · subst k
      rw [lookup_cons_self] at hw
      rw [← Option.some_inj.mp hw]
      have hrest : (rest.filterMap fun sw =>
          (rebalanceIntent positions amount sw.1 sw.2).map fun o => (sw.1, o)).lookup s =
          none := by
        rw [lookup_eq_none_iff]
        intro hmem
        exact hndt.1 ((rebalance_keys_sublist rest positions amount).subset
          (by simpa [rebalanceOrders] using hmem))
      cases hi : rebalanceIntent positions amount s u with
      | none =>
        simp only [hi, Option.map_none']
        exact hrest
      | some intent =>
        simp only [hi, Option.map_some']
        exact lookup_cons_self _ _ _
    · rw [lookup_cons_ne hs] at hw
      cases hi : rebalanceIntent positions amount k u with
      | none =>
        simp only [hi, Option.map_none']
        exact ih hndt.2 hw
      | some intent =>
        simp only [hi, Option.map_some']
        rw [lookup_cons_ne hs]
        exact ih hndt.2 hw

theorem calculate_orders_keys_nodup {api : PriceApi} {target : List (String × ℚ)}
    {positions : List (String × Position)} {amount : ℚ} {res : List (String × Order)}
    (hndp : (positions.map Prod.fst).Nodup) (hndt : (target.map Prod.fst).Nodup)
    (h : calculate_orders api target positions amount = some res) :
    (res.map Prod.fst).Nodup := by
  rw [calculate_orders] at h
  rw [priceOrders_keys h, List.map_append]
  refine List.Nodup.append ?_ ?_ ?_
  · exact hndp.sublist (sellOff_keys_sublist _ _)
  · exact hndt.sublist (rebalance_keys_sublist _ _ _)
  · intro x hx1 hx2
    have h1 := lookup_of_mem_sellOff_keys hx1
    have h2 : x ∈ target.map Prod.fst :=
      (rebalance_keys_sublist _ _ _).subset hx2
    exact (lookup_eq_none_iff target x).mp h1 h2

/-- C4: for every symbol held in the current positions but absent from the
target allocations, the successful result of `calculate_orders` contains
exactly one entry for that symbol: a sell order whose value is the
position's current market value and whose quantity is the currently held
quantity. The conclusion holds for every price/fractionability oracle,
and the quantity is taken from the position itself — the liquidation
order is not repriced in the pricing pass. -/
theorem c4_full_liquidation {api : PriceApi} {target : List (String × ℚ)}
    {positions : List (String × Position)} {amount : ℚ} {res : List (String × Order)}
    {s : String} {pos : Position}
    (hndp : (positions.map Prod.fst).Nodup) (hndt : (target.map Prod.fst).Nodup)
    (hpos : positions.lookup s = some pos) (habs : target.lookup s = none)
    (hcalc : calculate_orders api target positions amount = some res) :
    res.filter (fun p => p.1 == s) = [(s, ⟨"sell", pos.market_value, pos.qty⟩)] := by
  have hnd := calculate_orders_keys_nodup hndp hndt hcalc
  apply filter_key_eq_single hnd
  rw [calculate_orders] at hcalc
  have hlk := priceOrders_lookup hcalc s
  rw [lookup_append_left _ (sellOff_lookup_of_not_target hpos habs)] at hlk
  rw [hlk]
  simp [priceOne, habs]

/-- Witness for C4: position "C" (qty 5, market value 500) with targets
for "A" and "B" only; the result contains exactly the full-liquidation
sell for "C". -/
theorem c4_full_liquidation_witness :
    ((calculate_orders ⟨fun _ => some 10, fun _ => some true⟩ [("A", 3 / 5), ("B", 2 / 5)]
        [("C", ⟨5, 500⟩)] 1000).getD []).filter (fun p => p.1 == "C") =
      [("C", ⟨"sell", 500, 5⟩)] := by
  have h : calculate_orders ⟨fun _ => some 10, fun _ => some true⟩
      [("A", 3 / 5), ("B", 2 / 5)] [("C", ⟨5, 500⟩)] 1000 =
      some [("C", ⟨"sell", 500, 5⟩), ("A", ⟨"buy", 600, 60⟩), ("B", ⟨"buy", 400, 40⟩)] := by
    with_unfolding_all rfl
  rw [h, Option.getD_some]
  exact @c4_full_liquidation ⟨fun _ => some 10, fun _ => some true⟩
    [("A", 3 / 5), ("B", 2 / 5)] [("C", ⟨5, 500⟩)] 1000 _ "C" ⟨5, 500⟩
    (by simp) (by simp) rfl rfl h

/-- C5: for every symbol in the target allocations, writing
`difference = budget * weight - current market value (0 if not held)`,
the successful result of `calculate_orders` contains exactly one buy
order of value `difference` when `difference > 0`, exactly one sell
order of value `-difference` when `difference < 0`, and no entry at all
when `difference = 0`. -/
theorem c5_rebalance_diff {api : PriceApi} {target : List (String × ℚ)}
    {positions : List (String × Position)} {amount : ℚ} {res : List (String × Order)}
    {s : String} {w : ℚ}
    (hndp : (positions.map Prod.fst).Nodup) (hndt : (target.map Prod.fst).Nodup)
    (hw : target.lookup s = some w)
    (hcalc : calculate_orders api target positions amount = some res) :
    (0 < amount * w - currentValue positions s →
      ∃ ord : Order, res.filter (fun p => p.1 == s) = [(s, ord)] ∧
        ord.side = "buy" ∧ ord.value = amount * w - currentValue positions s) ∧
    (amount * w - currentValue positions s < 0 →
      ∃ ord : Order, res.filter (fun p => p.1 == s) = [(s, ord)] ∧
        ord.side = "sell" ∧ ord.value = -(amount * w - currentValue positions s)) ∧
    (amount * w - currentValue positions s = 0 →
      res.filter (fun p => p.1 == s) = []) := by
  have hnd := calculate_orders_keys_nodup hndp hndt hcalc
  rw [calculate_orders] at hcalc
  have hlk := priceOrders_lookup hcalc s
  rw [lookup_append_right _ (sellOff_lookup_of_target (by rw [hw]; rfl))] at hlk
  rw [rebalance_lookup_of_target hndt hw] at hlk
  have hprice : ∀ {o : Intent}, rebalanceIntent positions amount s w = some o →
      ∃ ord : Order, res.lookup s = some ord ∧ ord.side = o.side ∧ ord.value = o.value := by
    intro o ho
    have hmem : (s, o) ∈ sellOffOrders target positions ++
        rebalanceOrders target positions amount :=
      List.mem_append_right _ (mem_of_lookup_eq_some
        (by rw [rebalance_lookup_of_target hndt hw]; exact ho))
    obtain ⟨ord, hord⟩ := Option.isSome_iff_exists.mp (priceOrders_mem_isSome hcalc hmem)
    refine ⟨ord, ?_, priceOne_some hord⟩
    rw [hlk, ho]
    simpa using hord
  refine ⟨?_, ?_, ?_⟩
  · intro hgt
    obtain ⟨ord, hord, hside, hval⟩ := hprice (o := ⟨"buy",
      amount * w - currentValue positions s, none⟩)
      (by simp only [rebalanceIntent]; rw [if_pos hgt])
    exact ⟨ord, filter_key_eq_single hnd hord, hside, hval⟩
  · intro hlt
    obtain ⟨ord, hord, hside, hval⟩ := hprice (o := ⟨"sell",
      -(amount * w - currentValue positions s), none⟩)
      (by simp only [rebalanceIntent]; rw [if_neg (by linarith), if_pos hlt])
    exact ⟨ord, filter_key_eq_single hnd hord, hside, hval⟩
  · intro heq
    have hre : rebalanceIntent positions amount s w = none := by
      simp only [rebalanceIntent]
      rw [if_neg (by linarith), if_neg (by linarith)]
    rw [hre] at hlk
    exact filter_key_eq_nil ((lookup_eq_none_iff res s).mp (by simpa using hlk))

/-- Witness for C5 at the spec's end-to-end example: target
{A: 3/5, B: 2/5}, held {C: qty 5, value 500}, budget 1000; for "A" the
difference is 600 > 0 and the result holds exactly one buy of value
600 for "A". -/
theorem c5_rebalance_diff_witness :
    (0 < (1000 : ℚ) * (3 / 5) - currentValue [("C", ⟨5, 500⟩)] "A" →
      ∃ ord : Order,
        ([("C", ⟨"sell", 500, 5⟩), ("A", ⟨"buy", 600, 60⟩),
            ("B", ⟨"buy", 400, 40⟩)] : List (String × Order)).filter
          (fun p => p.1 == "A") = [("A", ord)] ∧
        ord.side = "buy" ∧
        ord.value = (1000 : ℚ) * (3 / 5) - currentValue [("C", ⟨5, 500⟩)] "A") ∧
    ((1000 : ℚ) * (3 / 5) - currentValue [("C", ⟨5, 500⟩)] "A" < 0 →
      ∃ ord : Order,
        ([("C", ⟨"sell", 500, 5⟩), ("A", ⟨"buy", 600, 60⟩),
            ("B", ⟨"buy", 400, 40⟩)] : List (String × Order)).filter
          (fun p => p.1 == "A") = [("A", ord)] ∧
        ord.side = "sell" ∧
        ord.value = -((1000 : ℚ) * (3 / 5) - currentValue [("C", ⟨5, 500⟩)] "A")) ∧
    ((1000 : ℚ) * (3 / 5) - currentValue [("C", ⟨5, 500⟩)] "A" = 0 →
      ([("C", ⟨"sell", 500, 5⟩), ("A", ⟨"buy", 600, 60⟩),
          ("B", ⟨"buy", 400, 40⟩)] : List (String × Order)).filter
        (fun p => p.1 == "A") = []) :=
  @c5_rebalance_diff ⟨fun _ => some 10, fun _ => some true⟩
    [("A", 3 / 5), ("B", 2 / 5)] [("C", ⟨5, 500⟩)] 1000 _ "A" (3 / 5)
    (by simp) (by simp) rfl
    (by with_unfolding_all rfl :
      calculate_orders ⟨fun _ => some 10, fun _ => some true⟩ [("A", 3 / 5), ("B", 2 / 5)]
        [("C", ⟨5, 500⟩)] 1000 =
      some [("C", ⟨"sell", 500, 5⟩), ("A", ⟨"buy", 600, 60⟩), ("B", ⟨"buy", 400, 40⟩)])

/-! Lemmas about the allocation dict built by `get_target_allocations`
(Python dict semantics: last write wins, the first insertion keeps the
key's position). -/

theorem lookup_map_update_self {d : List (String × ℚ)} {k : String} {v : ℚ}
    (hany : (d.any fun p => p.1 == k) = true) :
    (d.map fun p => if p.1 == k then (k, v) else p).lookup k = some v := by
  induction d with
  | nil => simp at hany
  | cons p rest ih =>
    obtain ⟨k', v'⟩ := p
    by_cases hk : k' = k
    · subst hk
      rw [List.map_cons,
        show (if ((k' : String) == k') = true then (k', v) else (k', v')) = (k', v) by simp]
      exact lookup_cons_self _ _ _
    · rw [List.map_cons,
        show (if ((k' : String) == k) = true then (k, v) else (k', v')) = (k', v') by
          simp [hk]]
      rw [lookup_cons_ne fun h => hk h.symm]
      apply ih
      simpa [hk] using hany

theorem lookup_map_update_ne {d : List (String × ℚ)} {k : String} {v : ℚ} {s : String}
    (hs : ¬s = k) :
    (d.map fun p => if p.1 == k then (k, v) else p).lookup s = d.lookup s := by
  induction d with
  | nil => simp
  | cons p rest ih =>
    obtain ⟨k', v'⟩ := p
    by_cases hk : k' = k
    · subst hk
      rw [List.map_cons,
        show (if ((k' : String) == k') = true then (k', v) else (k', v')) = (k', v) by simp]
      rw [lookup_cons_ne hs, lookup_cons_ne hs]
      exact ih
    · rw [List.map_cons,
        show (if ((k' : String) == k) = true then (k, v) else (k', v')) = (k', v') by
          simp [hk]]
      by_cases hsk : s = k'
      · subst hsk
        rw [lookup_cons_self, lookup_cons_self]
      · rw [lookup_cons_ne hsk, lookup_cons_ne hsk]
        exact ih

theorem lookup_dictInsert (d : List (String × ℚ)) (k : String) (v : ℚ) (s : String) :
    (dictInsert d k v).lookup s = if s = k then some v else d.lookup s := by
  unfold dictInsert
  by_cases hany : (d.any fun p => p.1 == k) = true
  · rw [if_pos hany]
    by_cases hs : s = k
    · subst hs
      rw [if_pos rfl]
      exact lookup_map_update_self hany
    · rw [if_neg hs]
      exact lookup_map_update_ne hs
  · rw [if_neg hany]
    have hknone : d.lookup k = none := by
      rw [lookup_eq_none_iff]
      intro hmem
      apply hany
      rw [List.any_eq_true]
      obtain ⟨p, hp, hps⟩ := List.mem_map.mp hmem
      exact ⟨p, hp, by simp [hps]⟩
    by_cases hs : s = k
    · subst hs
      rw [if_pos rfl, lookup_append_right _ hknone]
      exact lookup_cons_self _ _ _
    · rw [if_neg hs]
      cases hd : d.lookup s with
      | some u => exact lookup_append_left _ hd
      | none =>
        rw [lookup_append_right _ hd, lookup_cons_ne hs]
        simp [hd]

theorem keys_dictInsert (d : List (String × ℚ)) (k : String) (v : ℚ) :
    (dictInsert d k v).map Prod.fst = d.map Prod.fst ∨
    ((dictInsert d k v).map Prod.fst = d.map Prod.fst ++ [k] ∧
      k ∉ d.map Prod.fst) := by
  unfold dictInsert
  by_cases hany : (d.any fun p => p.1 == k) = true
  · left
    rw [if_pos hany, List.map_map]
    apply List.map_congr_left
    intro p hp
    by_cases hpk : p.1 = k
    · simp [hpk]
    · simp [hpk]
  · right
    rw [if_neg hany, List.map_append]
    refine ⟨rfl, fun hmem => hany ?_⟩
    rw [List.any_eq_true]
    obtain ⟨p, hp, hps⟩ := List.mem_map.mp hmem
    exact ⟨p, hp, by simp [hps]⟩

theorem nodup_keys_dictInsert {d : List (String × ℚ)} {k : String} {v : ℚ}
    (h : (d.map Prod.fst).Nodup) : ((dictInsert d k v).map Prod.fst).Nodup := by
  rcases keys_dictInsert d k v with heq | ⟨heq, hk⟩
  · rw [heq]
    exact h
  · rw [heq]
    exact ((List.perm_append_singleton k (d.map Prod.fst)).nodup_iff).mpr
      (List.nodup_cons.mpr ⟨hk, h⟩)

theorem foldl_dictInsert_keys_nodup (l : List (String × ℚ)) :
    ∀ d : List (String × ℚ), (d.map Prod.fst).Nodup →
      ((l.foldl (fun d p => dictInsert d p.1 p.2) d).map Prod.fst).Nodup := by
  induction l with
  | nil =>
    intro d h
    exact h
  | cons p rest ih =>
    intro d h
    rw [List.foldl_cons]
    exact ih _ (nodup_keys_dictInsert h)

theorem getLast?_cons_of_getLast?_some {α : Type} {l : List α} {a b : α}
    (h : l.getLast? = some b) : (a :: l).getLast? = some b := by
  cases l with
  | nil => simp at h
  | cons x xs =>
    rw [List.getLast?_cons_cons]
    exact h

/-- Core of C10: the dict built from the filtered rows maps a ticker to
the allocation of the LAST row carrying that ticker (earlier duplicates
are overwritten), falling back to the accumulator when no row matches. -/
theorem dict_lookup_lastRow (sym t : String) (rows : List Row) :
    ∀ d : List (String × ℚ),
      (∀ r ∈ rows, r.symphony = sym → r.alloc ≠ none) →
      ((((rows.filter fun r => r.symphony == sym).filterMap fun r =>
          r.alloc.map fun v => (r.ticker, v)).foldl
            (fun d p => dictInsert d p.1 p.2) d).lookup t) =
        (match (rows.filter fun r => r.symphony == sym && r.ticker == t).getLast? with
          | some r => r.alloc
          | none => d.lookup t) := by
  induction rows with
  | nil =>
    intro d _
    simp
  | cons r rest ih =>
    intro d hnn
    by_cases hsym : r.symphony = sym
    · obtain ⟨v, hv⟩ : ∃ v, r.alloc = some v := by
        cases halloc : r.alloc with
        | none => exact absurd halloc (hnn r (List.mem_cons_self _ _) hsym)
        | some v => exact ⟨v, rfl⟩
      rw [List.filter_cons_of_pos (by simp [hsym])]
      simp only [List.filterMap_cons, hv, Option.map_some', List.foldl_cons]
      rw [ih _ fun r' h' hs' => hnn r' (List.mem_cons_of_mem _ h') hs']
      by_cases ht : r.ticker = t
      · rw [List.filter_cons_of_pos (by simp [hsym, ht])]
        cases hlast :
            (rest.filter fun r' => r'.symphony == sym && r'.ticker == t).getLast? with
        | some r' =>
          rw [getLast?_cons_of_getLast?_some hlast]
        | none =>
          have hnil := List.getLast?_eq_none_iff.mp hlast
          simp only [hlast, hnil, List.getLast?_singleton]
          rw [lookup_dictInsert, if_pos (show t = r.ticker from ht.symm), hv]
      · rw [List.filter_cons_of_neg (by simp [ht])]
        cases hlast :
            (rest.filter fun r' => r'.symphony == sym && r'.ticker == t).getLast? with
        | some r' =>
          simp only [hlast]
        | none =>
          simp only [hlast]
          rw [lookup_dictInsert, if_neg fun h => ht h.symm]
    · rw [List.filter_cons_of_neg (by simp [hsym]),
        List.filter_cons_of_neg (by simp [hsym])]
      exact ih d fun r' h' => hnn r' (List.mem_cons_of_mem _ h')

/-- C10: when the CSV holds several rows with the same ticker for the
selected symphony (and all filtered allocations are numeric), the dict
built by the allocation-fetch step keeps only the LAST such row's
percentage — earlier duplicates are discarded before normalization — so
its keys are duplicate-free, and the mapping `get_target_allocations`
returns has exactly these keys: at most one weight per ticker. -/
theorem c10_duplicate_ticker_last_wins {rows : List Row} {sym t : String}
    (hnn : ∀ r ∈ rows, r.symphony = sym → r.alloc ≠ none) :
    (targetAllocationsDict rows sym).lookup t =
      ((rows.filter fun r => r.symphony == sym && r.ticker == t).getLast?).bind
        Row.alloc ∧
    ((targetAllocationsDict rows sym).map Prod.fst).Nodup ∧
    ∀ l, get_target_allocations true rows sym = .ok l →
      l.map Prod.fst = (targetAllocationsDict rows sym).map Prod.fst := by
  refine ⟨?_, ?_, ?_⟩
  · have h := dict_lookup_lastRow sym t rows [] hnn
    rw [targetAllocationsDict, coercedRows, h]
    cases hlast :
        (rows.filter fun r => r.symphony == sym && r.ticker == t).getLast? with
    | some r => simp
    | none => simp
  · rw [targetAllocationsDict]
    exact foldl_dictInsert_keys_nodup _ [] (by simp)
  · intro l hl
    rw [get_target_allocations] at hl
    have hnan : ((rows.filter fun r => r.symphony == sym).any fun r =>
        r.alloc.isNone) = false := by
      rw [List.any_eq_false]
      intro r hr
      obtain ⟨hmem, hsym⟩ := List.mem_filter.mp hr
      intro hno
      exact hnn r hmem (by simpa using hsym) (Option.isNone_iff_eq_none.mp hno)
    simp only [Bool.not_true, Bool.false_eq_true, if_false, hnan] at hl
    by_cases hemp : (targetAllocationsDict rows sym).isEmpty = true
    · rw [if_pos hemp] at hl
      obtain rfl : ([] : List (String × ℚ)) = l := FetchResult.ok.inj hl
      rw [List.isEmpty_iff.mp hemp]
    · rw [if_neg hemp] at hl
      by_cases htot : ((targetAllocationsDict rows sym).map Prod.snd).sum = 0
      · rw [if_pos htot] at hl
        exact absurd hl (by simp)
      · rw [if_neg htot] at hl
        obtain rfl := FetchResult.ok.inj hl
        rw [List.map_map]
        apply List.map_congr_left
        intro p hp
        rfl

/-- Witness for C10: rows (S, A, 30), (S, B, 30), (S, A, 10) — the dict
keeps A ↦ 10 (the last A row) and its keys are duplicate-free. -/
theorem c10_duplicate_ticker_last_wins_witness :
    (targetAllocationsDict
        [⟨"S", "A", some 30⟩, ⟨"S", "B", some 30⟩, ⟨"S", "A", some 10⟩] "S").lookup "A" =
      (([⟨"S", "A", some 30⟩, ⟨"S", "B", some 30⟩,
          (⟨"S", "A", some 10⟩ : Row)].filter fun r =>
            r.symphony == "S" && r.ticker == "A").getLast?).bind Row.alloc ∧
    ((targetAllocationsDict
        [⟨"S", "A", some 30⟩, ⟨"S", "B", some 30⟩,
          ⟨"S", "A", some 10⟩] "S").map Prod.fst).Nodup := by
  have hnn : ∀ r ∈ ([⟨"S", "A", some 30⟩, ⟨"S", "B", some 30⟩,
      ⟨"S", "A", some 10⟩] : List Row), r.symphony = "S" → r.alloc ≠ none := by
    intro r hr
    simp only [List.mem_cons, List.not_mem_nil, or_false] at hr
    rcases hr with rfl | rfl | rfl <;> intro _ <;> simp
  exact ⟨(c10_duplicate_ticker_last_wins (t := "A") hnn).1,
    (c10_duplicate_ticker_last_wins (t := "A") hnn).2.1⟩

end ComposerSignals
